import Mathlib

/-!
Verification development for the personal-finance Telegram bot
(`src/unnamed/part_000`, the most complete variant, with `src/main.py` as a
near-duplicate).  The bot stores transactions in a SQLite table

  transactions(id AUTOINCREMENT, user_id INTEGER, username TEXT, date TEXT,
               amount REAL NOT NULL, category TEXT, description TEXT)

and a `user_preferences(user_id, language)` table.  We shallow-embed the
database as a list of transaction records (in insertion = autoincrement
order), SQLite TEXT comparison as byte-wise lexicographic order on the
character data (SQLite's BINARY collation compares UTF-8 bytes, which orders
strings exactly by code point), and REAL amounts as exact rationals.
-/

/-! ## SQLite BINARY collation on TEXT values -/

/-- Byte-wise (code-point-wise) lexicographic `≤` on character lists.  This is
SQLite's BINARY collation, used by `date BETWEEN ? AND ?` and `ORDER BY date`
on the TEXT `date` column. -/
def charListLe : List Char → List Char → Bool
  | [], _ => true
  | _ :: _, [] => false
  | a :: as, b :: bs =>
    if a.toNat < b.toNat then true
    else if b.toNat < a.toNat then false
    else charListLe as bs

/-- SQLite TEXT comparison `a <= b` (BINARY collation). -/
def strLe (a b : String) : Bool :=
  charListLe a.data b.data

theorem charEq_of_toNat_eq {a b : Char} (h : a.toNat = b.toNat) : a = b := by
  apply Char.ext
  apply UInt32.ext
  simpa [Char.toNat] using h

theorem charListLe_refl (l : List Char) : charListLe l l = true := by
  induction l with
  | nil => rfl
  | cons a as ih => simp [charListLe, ih]

/-- Comparison ignores a shared prefix. -/
theorem charListLe_append_same (p x y : List Char) :
    charListLe (p ++ x) (p ++ y) = charListLe x y := by
  induction p with
  | nil => rfl
  | cons a p ih => simp [charListLe, ih]

/-- When the (equal-length) prefixes differ, the comparison is decided inside
the prefixes and the suffixes are irrelevant. -/
theorem charListLe_append_of_ne :
    ∀ (a b x y : List Char), a.length = b.length → a ≠ b →
      charListLe (a ++ x) (b ++ y) = charListLe a b
  | [], [], _, _, _, hne => absurd rfl hne
  | [], _ :: _, _, _, hlen, _ => by simp at hlen
  | _ :: _, [], _, _, hlen, _ => by simp at hlen
  | a :: as, b :: bs, x, y, hlen, hne => by
    simp only [List.cons_append, charListLe]
    by_cases h1 : a.toNat < b.toNat
    · simp [h1]
    · by_cases h2 : b.toNat < a.toNat
      · simp [h1, h2]
      · have hab : a = b := charEq_of_toNat_eq (by omega)
        subst hab
        have htl : as ≠ bs := fun h => hne (by rw [h])
        have hno : ¬ a.toNat < a.toNat := lt_irrefl _
        simp only [if_neg hno]
        exact charListLe_append_of_ne as bs x y (by simpa using hlen) htl

theorem charListLe_antisymm :
    ∀ {a b : List Char}, charListLe a b = true → charListLe b a = true → a = b
  | [], [], _, _ => rfl
  | [], _ :: _, _, h2 => by simp [charListLe] at h2
  | _ :: _, [], h1, _ => by simp [charListLe] at h1
  | a :: as, b :: bs, h1, h2 => by
    simp only [charListLe] at h1 h2
    by_cases hab : a.toNat < b.toNat
    · rw [if_neg (by omega), if_pos hab] at h2
      exact absurd h2 (by simp)
    · by_cases hba : b.toNat < a.toNat
      · rw [if_neg hab, if_pos hba] at h1
        exact absurd h1 (by simp)
      · have : a = b := charEq_of_toNat_eq (by omega)
        subst this
        rw [if_neg hab, if_neg hab] at h1 h2
        rw [charListLe_antisymm h1 h2]

theorem charListLe_total (a b : List Char) :
    charListLe a b = true ∨ charListLe b a = true := by
  induction a generalizing b with
  | nil => exact Or.inl rfl
  | cons x xs ih =>
    cases b with
    | nil => exact Or.inr rfl
    | cons y ys =>
      by_cases h1 : x.toNat < y.toNat
      · exact Or.inl (by simp [charListLe, h1])
      · by_cases h2 : y.toNat < x.toNat
        · exact Or.inr (by simp [charListLe, h2])
        · rcases ih ys with h | h
          · exact Or.inl (by simp [charListLe, h1, h2, h])
          · exact Or.inr (by simp [charListLe, h1, h2, h])

theorem charListLe_trans :
    ∀ {a b c : List Char}, charListLe a b = true → charListLe b c = true →
      charListLe a c = true
  | [], _, _, _, _ => rfl
  | _ :: _, [], _, h1, _ => by simp [charListLe] at h1
  | _ :: _, _ :: _, [], _, h2 => by simp [charListLe] at h2
  | a :: as, b :: bs, c :: cs, h1, h2 => by
    simp only [charListLe] at h1 h2 ⊢
    by_cases hab : a.toNat < b.toNat
    · by_cases hbc : b.toNat < c.toNat
      · rw [if_pos (by omega)]
      · by_cases hcb : c.toNat < b.toNat
        · rw [if_neg hbc, if_pos hcb] at h2
          exact absurd h2 (by simp)
        · rw [if_pos (by omega)]
    · by_cases hba : b.toNat < a.toNat
      · rw [if_neg hab, if_pos hba] at h1
        exact absurd h1 (by simp)
      · have : a = b := charEq_of_toNat_eq (by omega)
        subst this
        rw [if_neg hab] at h1
        rw [if_neg (lt_irrefl a.toNat)] at h1
        by_cases hac : a.toNat < c.toNat
        · rw [if_pos hac]
        · by_cases hca : c.toNat < a.toNat
          · rw [if_neg (by omega), if_pos hca] at h2
            exact absurd h2 (by simp)
          · rw [if_neg hac, if_neg hca]
            rw [if_neg (by omega), if_neg (by omega)] at h2
            exact charListLe_trans h1 h2

/-! ## Timestamp strings

The bot writes timestamps with `datetime.now().strftime("%Y-%m-%d %H:%M:%S")`
and the import path normalizes dates with the same format, so every stored
`date` TEXT value has the canonical zero-padded 19-character shape. -/

/-- `c` is an ASCII digit (`'0'` = 48 … `'9'` = 57). -/
def IsDigit (c : Char) : Prop := 48 ≤ c.toNat ∧ c.toNat ≤ 57

instance (c : Char) : Decidable (IsDigit c) :=
  inferInstanceAs (Decidable (_ ∧ _))

/-- Canonical zero-padded `YYYY-MM-DD` character sequence. -/
def ValidDate (l : List Char) : Prop :=
  l.length = 10 ∧
  IsDigit (l.getD 0 ' ') ∧ IsDigit (l.getD 1 ' ') ∧
  IsDigit (l.getD 2 ' ') ∧ IsDigit (l.getD 3 ' ') ∧
  l.getD 4 ' ' = '-' ∧
  IsDigit (l.getD 5 ' ') ∧ IsDigit (l.getD 6 ' ') ∧
  l.getD 7 ' ' = '-' ∧
  IsDigit (l.getD 8 ' ') ∧ IsDigit (l.getD 9 ' ')

instance (l : List Char) : Decidable (ValidDate l) :=
  inferInstanceAs (Decidable (_ ∧ _))

/-- Canonical `HH:MM:SS` character sequence with in-range fields
(hour ≤ 23 is `10*h1 + h2 ≤ 10*48 + 48 + 23 = 551` on code points; minute and
second ≤ 59 mean their tens digits are at most `'5'` = 53). -/
def ValidTime (l : List Char) : Prop :=
  l.length = 8 ∧
  IsDigit (l.getD 0 ' ') ∧ IsDigit (l.getD 1 ' ') ∧
  l.getD 2 ' ' = ':' ∧
  IsDigit (l.getD 3 ' ') ∧ IsDigit (l.getD 4 ' ') ∧
  l.getD 5 ' ' = ':' ∧
  IsDigit (l.getD 6 ' ') ∧ IsDigit (l.getD 7 ' ') ∧
  10 * (l.getD 0 ' ').toNat + (l.getD 1 ' ').toNat ≤ 551 ∧
  (l.getD 3 ' ').toNat ≤ 53 ∧ (l.getD 6 ' ').toNat ≤ 53

instance (l : List Char) : Decidable (ValidTime l) :=
  inferInstanceAs (Decidable (_ ∧ _))

/-- Canonical `YYYY-MM-DD HH:MM:SS` timestamp string, the format produced by
`strftime("%Y-%m-%d %H:%M:%S")` on both insertion paths. -/
def ValidTs (s : String) : Prop :=
  s.data.length = 19 ∧ ValidDate (s.data.take 10) ∧
  s.data.getD 10 ' ' = ' ' ∧ ValidTime (s.data.drop 11)

instance (s : String) : Decidable (ValidTs s) :=
  inferInstanceAs (Decidable (_ ∧ _))

/-- Models `datetime.strptime(s, "%Y-%m-%d")` succeeding: canonical zero-padded
date with month `01`–`12` and day `01`–`31` (on code points, with `'0'` = 48
the digit pair `m1 m2` has `10*m1 + m2 = 528 + month`, so month ∈ [1, 12] is
`529 ≤ 10*m1+m2 ≤ 540` and day ∈ [1, 31] is `529 ≤ 10*d1+d2 ≤ 559`).  Real
`strptime` also tolerates unpadded month/day and rejects calendar-invalid
days; no theorem relies on either. -/
def StrptimeDate (s : String) : Prop :=
  ValidDate s.data ∧
  529 ≤ 10 * (s.data.getD 5 ' ').toNat + (s.data.getD 6 ' ').toNat ∧
  10 * (s.data.getD 5 ' ').toNat + (s.data.getD 6 ' ').toNat ≤ 540 ∧
  529 ≤ 10 * (s.data.getD 8 ' ').toNat + (s.data.getD 9 ' ').toNat ∧
  10 * (s.data.getD 8 ' ').toNat + (s.data.getD 9 ' ').toNat ≤ 559

instance (s : String) : Decidable (StrptimeDate s) :=
  inferInstanceAs (Decidable (_ ∧ _))

theorem exists_shape8 {t : List Char} (h : t.length = 8) :
    ∃ c1 c2 c3 c4 c5 c6 c7 c8, t = [c1, c2, c3, c4, c5, c6, c7, c8] := by
  rcases t with _ | ⟨c1, t⟩; · simp at h
  rcases t with _ | ⟨c2, t⟩; · simp at h
  rcases t with _ | ⟨c3, t⟩; · simp at h
  rcases t with _ | ⟨c4, t⟩; · simp at h
  rcases t with _ | ⟨c5, t⟩; · simp at h
  rcases t with _ | ⟨c6, t⟩; · simp at h
  rcases t with _ | ⟨c7, t⟩; · simp at h
  rcases t with _ | ⟨c8, t⟩; · simp at h
  rcases t with _ | ⟨c9, t⟩
  · exact ⟨c1, c2, c3, c4, c5, c6, c7, c8, rfl⟩
  · simp only [List.length_cons] at h; omega

/-- A `ValidTs` string splits as `date ++ ' ' :: time`. -/
theorem ValidTs_decomp {s : String} (h : ValidTs s) :
    ∃ d t, s.data = d ++ ' ' :: t ∧ ValidDate d ∧ ValidTime t ∧ d.length = 10 := by
  obtain ⟨hlen, hd, hsp, ht⟩ := h
  have hlt : 10 < s.data.length := by omega
  have hdrop : s.data.drop 10 = s.data.getD 10 ' ' :: s.data.drop 11 := by
    rw [List.getD_eq_getElem _ _ hlt]
    exact List.drop_eq_getElem_cons hlt
  refine ⟨s.data.take 10, s.data.drop 11, ?_, hd, ht, ?_⟩
  · conv_lhs => rw [← List.take_append_drop 10 s.data]
    rw [hdrop, hsp]
  · rw [List.length_take]; omega

/-- `"00:00:00"` as characters. -/
def zeroTime : List Char := ['0', '0', ':', '0', '0', ':', '0', '0']

/-- `"23:59:59"` as characters. -/
def maxTime : List Char := ['2', '3', ':', '5', '9', ':', '5', '9']

theorem charListLe_cons_lt {a b : Char} (as bs : List Char) (h : a.toNat < b.toNat) :
    charListLe (a :: as) (b :: bs) = true := by
  unfold charListLe
  rw [if_pos h]

theorem charListLe_cons_eq {a b : Char} (as bs : List Char) (h : a.toNat = b.toNat) :
    charListLe (a :: as) (b :: bs) = charListLe as bs := by
  conv_lhs => rw [charListLe]
  rw [if_neg (by omega), if_neg (by omega)]

theorem charListLe_zeroTime {t : List Char} (h : ValidTime t) :
    charListLe zeroTime t = true := by
  obtain ⟨c1, c2, c3, c4, c5, c6, c7, c8, rfl⟩ := exists_shape8 h.1
  obtain ⟨-, h1, h2, h3, h4, h5, h6, h7, h8, h9, h10, h11⟩ := h
  simp only [List.getD_cons_zero, List.getD_cons_succ] at h1 h2 h3 h4 h5 h6 h7 h8 h9 h10 h11
  have e0 : ('0' : Char).toNat = 48 := rfl
  have ec : (':' : Char).toNat = 58 := rfl
  subst h3 h6
  show charListLe ('0' :: '0' :: ':' :: '0' :: '0' :: ':' :: '0' :: '0' :: [])
    (c1 :: c2 :: ':' :: c4 :: c5 :: ':' :: c7 :: c8 :: []) = true
  rcases Nat.lt_or_ge ('0' : Char).toNat c1.toNat with hlt | hge
  · exact charListLe_cons_lt _ _ hlt
  rw [charListLe_cons_eq _ _ (by obtain ⟨ha, hb⟩ := h1; omega)]
  rcases Nat.lt_or_ge ('0' : Char).toNat c2.toNat with hlt | hge2
  · exact charListLe_cons_lt _ _ hlt
  rw [charListLe_cons_eq _ _ (by obtain ⟨ha, hb⟩ := h2; omega)]
  rw [charListLe_cons_eq _ _ rfl]
  rcases Nat.lt_or_ge ('0' : Char).toNat c4.toNat with hlt | hge4
  · exact charListLe_cons_lt _ _ hlt
  rw [charListLe_cons_eq _ _ (by obtain ⟨ha, hb⟩ := h4; omega)]
  rcases Nat.lt_or_ge ('0' : Char).toNat c5.toNat with hlt | hge5
  · exact charListLe_cons_lt _ _ hlt
  rw [charListLe_cons_eq _ _ (by obtain ⟨ha, hb⟩ := h5; omega)]
  rw [charListLe_cons_eq _ _ rfl]
  rcases Nat.lt_or_ge ('0' : Char).toNat c7.toNat with hlt | hge7
  · exact charListLe_cons_lt _ _ hlt
  rw [charListLe_cons_eq _ _ (by obtain ⟨ha, hb⟩ := h7; omega)]
  rcases Nat.lt_or_ge ('0' : Char).toNat c8.toNat with hlt | hge8
  · exact charListLe_cons_lt _ _ hlt
  rw [charListLe_cons_eq _ _ (by obtain ⟨ha, hb⟩ := h8; omega)]
  rfl

theorem charListLe_maxTime {t : List Char} (h : ValidTime t) :
    charListLe t maxTime = true := by
  obtain ⟨c1, c2, c3, c4, c5, c6, c7, c8, rfl⟩ := exists_shape8 h.1
  obtain ⟨-, h1, h2, h3, h4, h5, h6, h7, h8, h9, h10, h11⟩ := h
  simp only [List.getD_cons_zero, List.getD_cons_succ] at h1 h2 h3 h4 h5 h6 h7 h8 h9 h10 h11
  have e2 : ('2' : Char).toNat = 50 := rfl
  have e3 : ('3' : Char).toNat = 51 := rfl
  have e5 : ('5' : Char).toNat = 53 := rfl
  have e9 : ('9' : Char).toNat = 57 := rfl
  subst h3 h6
  show charListLe (c1 :: c2 :: ':' :: c4 :: c5 :: ':' :: c7 :: c8 :: [])
    ('2' :: '3' :: ':' :: '5' :: '9' :: ':' :: '5' :: '9' :: []) = true
  rcases Nat.lt_or_ge c1.toNat ('2' : Char).toNat with hlt | hge
  · exact charListLe_cons_lt _ _ hlt
  have hc1 : c1.toNat = 50 := by obtain ⟨ha, hb⟩ := h2; omega
  rw [charListLe_cons_eq _ _ (by omega)]
  rcases Nat.lt_or_ge c2.toNat ('3' : Char).toNat with hlt | hge2
  · exact charListLe_cons_lt _ _ hlt
  have hc2 : c2.toNat = 51 := by obtain ⟨ha, hb⟩ := h2; omega
  rw [charListLe_cons_eq _ _ (by omega)]
  rw [charListLe_cons_eq _ _ rfl]
  rcases Nat.lt_or_ge c4.toNat ('5' : Char).toNat with hlt | hge4
  · exact charListLe_cons_lt _ _ hlt
  have hc4 : c4.toNat = 53 := by omega
  rw [charListLe_cons_eq _ _ (by omega)]
  rcases Nat.lt_or_ge c5.toNat ('9' : Char).toNat with hlt | hge5
  · exact charListLe_cons_lt _ _ hlt
  have hc5 : c5.toNat = 57 := by obtain ⟨ha, hb⟩ := h5; omega
  rw [charListLe_cons_eq _ _ (by omega)]
  rw [charListLe_cons_eq _ _ rfl]
  rcases Nat.lt_or_ge c7.toNat ('5' : Char).toNat with hlt | hge7
  · exact charListLe_cons_lt _ _ hlt
  have hc7 : c7.toNat = 53 := by omega
  rw [charListLe_cons_eq _ _ (by omega)]
  rcases Nat.lt_or_ge c8.toNat ('9' : Char).toNat with hlt | hge8
  · exact charListLe_cons_lt _ _ hlt
  have hc8 : c8.toNat = 57 := by obtain ⟨ha, hb⟩ := h8; omega
  rw [charListLe_cons_eq _ _ (by omega)]
  rfl

/-- The widened `date BETWEEN d || " 00:00:00" AND d || " 23:59:59"` test on a
well-formed stored timestamp holds exactly when the timestamp's day component
(its first ten characters) equals `d`. -/
theorem between_day_iff {d ts : String} (hd : ValidDate d.data) (hts : ValidTs ts) :
    (strLe (d ++ " 00:00:00") ts && strLe ts (d ++ " 23:59:59")) =
      decide (ts.data.take 10 = d.data) := by
  obtain ⟨e, t, hsplit, hde, hte, hlen10⟩ := ValidTs_decomp hts
  have hdlen : d.data.length = 10 := hd.1
  have hlo : (d ++ " 00:00:00").data = d.data ++ (' ' :: zeroTime) := by
    rw [String.data_append]; rfl
  have hhi : (d ++ " 23:59:59").data = d.data ++ (' ' :: maxTime) := by
    rw [String.data_append]; rfl
  have htake : ts.data.take 10 = e := by
    rw [hsplit, show (10 : Nat) = e.length from hlen10.symm]
    exact List.take_left e _
  by_cases heq : e = d.data
  · subst heq
    have h1 : strLe (d ++ " 00:00:00") ts = true := by
      unfold strLe
      rw [hlo, hsplit, List.append_cons d.data ' ' zeroTime,
        List.append_cons d.data ' ' t, charListLe_append_same]
      exact charListLe_zeroTime hte
    have h2 : strLe ts (d ++ " 23:59:59") = true := by
      unfold strLe
      rw [hhi, hsplit, List.append_cons d.data ' ' t,
        List.append_cons d.data ' ' maxTime, charListLe_append_same]
      exact charListLe_maxTime hte
    rw [h1, h2, htake]
    simp
  · have hlen : d.data.length = e.length := by omega
    have h1 : strLe (d ++ " 00:00:00") ts = charListLe d.data e := by
      unfold strLe
      rw [hlo, hsplit]
      exact charListLe_append_of_ne d.data e _ _ hlen (fun h => heq h.symm)
    have h2 : strLe ts (d ++ " 23:59:59") = charListLe e d.data := by
      unfold strLe
      rw [hhi, hsplit]
      exact charListLe_append_of_ne e d.data _ _ hlen.symm heq
    rw [h1, h2, htake]
    have : ¬(charListLe d.data e = true ∧ charListLe e d.data = true) := by
      rintro ⟨ha, hb⟩
      exact heq (charListLe_antisymm hb ha)
    cases hab : charListLe d.data e
    · simp [heq]
    · cases hba : charListLe e d.data
      · simp [heq]
      · exact absurd ⟨hab, hba⟩ this

/-! ## The ledger store

One record of the `transactions` table.  The autoincrement `id` is the list
position (records are kept in insertion order); REAL amounts are modelled as
exact rationals. -/

structure Txn where
  user_id : Int
  username : String
  date : String
  amount : Rat
  category : String
  description : String
deriving DecidableEq

/-- The `transactions` table, in insertion (autoincrement) order. -/
abbrev Ledger := List Txn

/-- `INSERT INTO transactions ... VALUES (...)`: appends one row. -/
def insertTxn (db : Ledger) (t : Txn) : Ledger := db ++ [t]

/-- `SELECT ... FROM transactions WHERE user_id = ?` (in rowid order). -/
def userTxns (db : Ledger) (u : Int) : List Txn :=
  db.filter (fun t => t.user_id == u)

/-- `SELECT amount FROM transactions WHERE user_id = ?`. -/
def userAmounts (db : Ledger) (u : Int) : List Rat :=
  (userTxns db u).map (fun t => t.amount)

/-- `SELECT SUM(amount) FROM transactions WHERE user_id = ?`: SQL `SUM` is
`NULL` (here `none`) on an empty selection. -/
def sqlSumAmounts (db : Ledger) (u : Int) : Option Rat :=
  match userAmounts db u with
  | [] => none
  | l => some l.sum

/-- `c.fetchone()[0] or 0` applied to the `SUM` query: the balance the bot
reports; `0`, never null, for a user with no transactions. -/
def sumByUser (db : Ledger) (u : Int) : Rat :=
  (sqlSumAmounts db u).getD 0

theorem sumByUser_eq_sum (db : Ledger) (u : Int) :
    sumByUser db u = (userAmounts db u).sum := by
  unfold sumByUser sqlSumAmounts
  cases h : userAmounts db u with
  | nil => simp
  | cons a l => simp

/-! ## Amount parsing (`float(...)` on user-typed text) -/

/-- Value of a digit string read left to right. -/
def digitsToNat (l : List Char) : Nat :=
  l.foldl (fun n c => 10 * n + (c.toNat - 48)) 0

/-- Models Python `float(s)` on decimal literals: optional sign, digits,
optional decimal point (`"1000"`, `"-75.50"`, `".5"`, `"3."`).  Exotic inputs
`float` also accepts (exponents, `"inf"`, underscores, surrounding
whitespace) are not modelled; no claim depends on them. -/
def parseFloat (s : String) : Option Rat :=
  let sb : Int × List Char :=
    match s.data with
    | '-' :: r => (-1, r)
    | '+' :: r => (1, r)
    | r => (1, r)
  let ip := sb.2.takeWhile (fun c => c != '.')
  match sb.2.dropWhile (fun c => c != '.') with
  | [] =>
    if ip.all (fun c => decide (IsDigit c)) && !ip.isEmpty then
      some ((sb.1 : Rat) * (digitsToNat ip : Rat))
    else none
  | _ :: f =>
    if ip.all (fun c => decide (IsDigit c)) && f.all (fun c => decide (IsDigit c))
        && !(ip.isEmpty && f.isEmpty) then
      some ((sb.1 : Rat) *
        ((digitsToNat ip : Rat) + (digitsToNat f : Rat) / (10 : Rat) ^ f.length))
    else none

/-! ## `/add` — add_transaction -/

inductive AddResult
  | error
  | added (balance : Rat)
deriving DecidableEq

/-- The `/add` handler: parse `float(args[0])` (reply the error message on
failure or missing arguments), lowercase `args[1]` as category (defaulting to
`"other"` with description `"No description"`), join the remaining arguments
as description (defaulting to the category), insert, and reply with the new
`SUM(amount) or 0` balance. -/
def add_transaction (db : Ledger) (u : Int) (username now : String)
    (args : List String) : Ledger × AddResult :=
  match args with
  | [] => (db, .error)
  | a0 :: rest =>
    match parseFloat a0 with
    | none => (db, .error)
    | some amount =>
      let cd : String × String :=
        match rest with
        | [] => ("other", "No description")
        | c :: ds =>
          (c.toLower, if ds.isEmpty then c.toLower else String.intercalate " " ds)
      let db2 := insertTxn db ⟨u, username, now, amount, cd.1, cd.2⟩
      (db2, .added (sumByUser db2 u))

/-! ## `/balance` — show_balance -/

inductive BalanceView
  | empty
  | summary (balance income expenses : Rat) (count : Nat)
deriving DecidableEq

/-- The `/balance` handler: on an empty selection reply the "no transactions"
message; otherwise balance = sum of the amounts, income = sum of the positive
amounts, expenses = `abs` of the sum of the negative amounts, count = number
of rows. -/
def show_balance (db : Ledger) (u : Int) : BalanceView :=
  let amounts := userAmounts db u
  if amounts.isEmpty then .empty
  else
    .summary amounts.sum
      ((amounts.filter (fun a => decide (0 < a))).sum)
      (abs ((amounts.filter (fun a => decide (a < 0))).sum))
      amounts.length

/-! ## `/report` — generate_report -/

/-- `SELECT amount FROM transactions WHERE user_id = ? AND date BETWEEN
start || " 00:00:00" AND end || " 23:59:59" [AND category = ?]` (the rows; the
handler then keeps only the amounts). -/
def queryRange (db : Ledger) (u : Int) (s e : String) (cat : Option String) :
    List Txn :=
  db.filter (fun t =>
    t.user_id == u && strLe (s ++ " 00:00:00") t.date &&
      strLe t.date (e ++ " 23:59:59") &&
      (match cat with
       | none => true
       | some c => t.category == c))

inductive ReportView
  | usage
  | invalidDate
  | empty
  | report (income expenses total : Rat) (count : Nat)
deriving DecidableEq

/-- The `/report` handler: needs two date arguments validated by
`strptime(_, "%Y-%m-%d")`, lowercases the optional third argument as category
filter, widens the day bounds, and reports income (positive sum), expenses
(absolute negative sum), net total (income plus signed negative sum) and
count, with a dedicated reply when no row matches. -/
def generate_report (db : Ledger) (u : Int) (args : List String) : ReportView :=
  if args.length < 2 then .usage
  else
    let s := args.getD 0 ""
    let e := args.getD 1 ""
    let cat : Option String :=
      if 2 < args.length then some ((args.getD 2 "").toLower) else none
    if ¬(StrptimeDate s ∧ StrptimeDate e) then .invalidDate
    else
      let amounts := (queryRange db u s e cat).map (fun t => t.amount)
      if amounts.isEmpty then .empty
      else
        let income := (amounts.filter (fun a => decide (0 < a))).sum
        let expenses := (amounts.filter (fun a => decide (a < 0))).sum
        .report income (abs expenses) (income + expenses) amounts.length

/-! ## Orderings used by `ORDER BY date` -/

/-- `ORDER BY date ASC` comparison. -/
def dateLe (a b : Txn) : Prop := strLe a.date b.date = true

instance : DecidableRel dateLe :=
  fun _ _ => inferInstanceAs (Decidable (_ = _))

instance : IsTotal Txn dateLe :=
  ⟨fun a b => charListLe_total a.date.data b.date.data⟩

instance : IsTrans Txn dateLe :=
  ⟨fun _ _ _ h1 h2 => charListLe_trans h1 h2⟩

/-- `ORDER BY date DESC` comparison. -/
def dateGe (a b : Txn) : Prop := strLe b.date a.date = true

instance : DecidableRel dateGe :=
  fun _ _ => inferInstanceAs (Decidable (_ = _))

instance : IsTotal Txn dateGe :=
  ⟨fun a b => (charListLe_total b.date.data a.date.data)⟩

instance : IsTrans Txn dateGe :=
  ⟨fun _ _ _ h1 h2 => charListLe_trans h2 h1⟩

/-! ## `/export` — export_transactions -/

/-- `SELECT ... WHERE user_id = ? ORDER BY date ASC`. -/
def userTxnsAsc (db : Ledger) (u : Int) : List Txn :=
  List.insertionSort dateLe (userTxns db u)

/-- The export loop's accumulator: pairs every row with the running balance
after it (`running_balance += amount`). -/
def runningRows : Rat → List Txn → List (Txn × Rat)
  | _, [] => []
  | acc, t :: ts => (t, acc + t.amount) :: runningRows (acc + t.amount) ts

/-- The data rows of the exported workbook: transactions ordered by timestamp
ascending, each paired with its running balance. -/
def export_transactions (db : Ledger) (u : Int) : List (Txn × Rat) :=
  runningRows 0 (userTxnsAsc db u)

/-- The export's "Type" column: `"Income" if amount > 0 else "Expense"`. -/
def transactionType (amount : Rat) : String :=
  if 0 < amount then "Income" else "Expense"

/-! ## `/history` — show_history -/

inductive HistoryView
  | empty
  | entries (rows : List Txn) (more : Option Nat)
deriving DecidableEq

/-- The `/history` handler: `ORDER BY date DESC LIMIT 10`, the "no
transactions" reply when nothing comes back, and — when `COUNT(*)` exceeds
10 — a trailing "... and {total_count - 10} more transactions" note. -/
def show_history (db : Ledger) (u : Int) : HistoryView :=
  if ((List.insertionSort dateGe (userTxns db u)).take 10).isEmpty then .empty
  else
    .entries ((List.insertionSort dateGe (userTxns db u)).take 10)
      (if 10 < (userTxns db u).length then some ((userTxns db u).length - 10)
       else none)

/-! ## `/clear` — clear_transactions -/

inductive ClearReply
  | nothingToClear
  | cleared (count : Nat)
deriving DecidableEq

/-- The `/clear` handler: count the user's rows; when zero, reply "No
transactions to clear!" and do nothing; otherwise `DELETE FROM transactions
WHERE user_id = ?` and reply with the count.  The middle component is the
number of rows the `DELETE` removes. -/
def clear_transactions (db : Ledger) (u : Int) : Ledger × Nat × ClearReply :=
  if (userTxns db u).length = 0 then (db, 0, .nothingToClear)
  else (db.filter (fun t => !(t.user_id == u)), (userTxns db u).length,
    .cleared (userTxns db u).length)

/-! ## Language preferences -/

/-- The keys of the `LANGUAGES` dict (the message catalogue itself is
presentation-only). -/
def LANGUAGES_codes : List String := ["en", "ru", "kg"]

/-- The `user_preferences` table: at most one row per user id. -/
abbrev Prefs := List (Int × String)

/-- `INSERT OR REPLACE INTO user_preferences (user_id, language)`. -/
def set_user_language (p : Prefs) (u : Int) (language : String) : Prefs :=
  (u, language) :: p.filter (fun x => !(x.1 == u))

/-- `SELECT language FROM user_preferences WHERE user_id = ?`, falling back to
`"en"` when no row exists. -/
def get_user_language (p : Prefs) (u : Int) : String :=
  match p.find? (fun x => x.1 == u) with
  | some x => x.2
  | none => "en"

/-- The `/setlang` handler: rejects a missing argument or one outside the
`LANGUAGES` keys before storing anything; the Bool reports acceptance. -/
def set_language (p : Prefs) (u : Int) (args : List String) : Prefs × Bool :=
  match args with
  | [] => (p, false)
  | a :: _ =>
    if LANGUAGES_codes.contains a then (set_user_language p u a, true)
    else (p, false)

/-- Every reachable preference state: `set_language` commands (with arbitrary
argument lists) applied from the empty table — the only code path that writes
`user_preferences`. -/
def applySetLangCmds (p : Prefs) (cmds : List (Int × List String)) : Prefs :=
  cmds.foldl (fun q c => (set_language q c.1 c.2).1) p

/-! ## Bulk import — handle_file -/

/-- One spreadsheet cell as pandas hands it to the loop: missing (`NaN`),
numeric, or text.  An absent optional column behaves like its `row.get`
default and is modelled through the same constructors. -/
inductive Cell
  | missing
  | num (q : Rat)
  | txt (s : String)
deriving DecidableEq

/-- `pd.isna`. -/
def Cell.isna : Cell → Bool
  | .missing => true
  | _ => false

/-- Python `str(...)` of a cell value (the `missing` case is unreachable where
this is used: every use is guarded by an `isna` check). -/
def cellStr : Cell → String
  | .missing => "nan"
  | .num q => toString q
  | .txt s => s

/-- Result of `float(cell)`: a value, a silent NaN (missing cells — `float`
does not raise on NaN!), or a `ValueError`. -/
inductive FloatRes
  | val (q : Rat)
  | nan
  | valueError
deriving DecidableEq

/-- Models `float(row['Amount'])`. -/
def pyFloat : Cell → FloatRes
  | .missing => .nan
  | .num q => .val q
  | .txt s =>
    match parseFloat s with
    | some q => .val q
    | none => .valueError

/-- Models `pd.to_datetime(x).strftime("%Y-%m-%d %H:%M:%S")`: an ISO
`YYYY-MM-DD` string gains a midnight time, a canonical `YYYY-MM-DD HH:MM:SS`
string passes through, other text raises `ValueError` (→ `none`).  A numeric
cell never raises in pandas (it is read as an epoch offset); its rendering is
irrelevant to every claim and is modelled as the epoch itself. -/
def parsePdDate : Cell → Option String
  | .missing => none
  | .num _ => some "1970-01-01 00:00:00"
  | .txt s =>
    if StrptimeDate s then some (s ++ " 00:00:00")
    else if ValidTs s then some s
    else none

structure RawRow where
  dateCell : Cell
  amountCell : Cell
  categoryCell : Cell
  descriptionCell : Cell
deriving DecidableEq

inductive RowStep
  | skip
  | fatal
  | ins (t : Txn)
deriving DecidableEq

/-- One iteration of the import loop: a missing date `continue`s, an
unparseable date or amount raises `ValueError`/`TypeError` which the loop
catches and skips, category and description fall back to `"other"` and the
category, and a NaN amount reaches the `INSERT` — where SQLite stores NaN as
NULL, so the `amount REAL NOT NULL` column raises `IntegrityError`, which the
loop does NOT catch (`.fatal`). -/
def processRow (u : Int) (username : String) (r : RawRow) : RowStep :=
  if r.dateCell.isna then .skip
  else
    match parsePdDate r.dateCell with
    | none => .skip
    | some ds =>
      match pyFloat r.amountCell with
      | .valueError => .skip
      | .nan => .fatal
      | .val q =>
        let category :=
          if r.categoryCell.isna then "other" else (cellStr r.categoryCell).toLower
        let description :=
          if r.descriptionCell.isna then category else cellStr r.descriptionCell
        .ins { user_id := u, username := username, date := ds, amount := q,
               category := category, description := description }

/-- The whole `for _, row in df.iterrows()` loop.  `none` models the uncaught
`IntegrityError`: control jumps to the outer `except` before `conn.commit()`,
so every insert of the batch is rolled back. -/
def processRows (u : Int) (username : String) :
    List RawRow → Ledger → Nat → Option (Ledger × Nat)
  | [], db, n => some (db, n)
  | r :: rs, db, n =>
    match processRow u username r with
    | .skip => processRows u username rs db n
    | .fatal => none
    | .ins t => processRows u username rs (insertTxn db t) (n + 1)

/-- A parsed upload: the DataFrame's column names and rows. -/
structure Upload where
  cols : List String
  rows : List RawRow

inductive FileOutcome
  | formatError
  | fatalError
  | processed (rowsAdded : Nat) (balance : Rat)
deriving DecidableEq

/-- The bulk-import handler, from the required-columns check on: reject the
whole batch when `Date` or `Amount` is not among the column names, otherwise
run the row loop; on the uncaught error the ledger is unchanged (nothing was
committed), otherwise commit and report the row count and new balance. -/
def handle_file (db : Ledger) (u : Int) (username : String) (up : Upload) :
    Ledger × FileOutcome :=
  if !(["Date", "Amount"].all (fun c => up.cols.contains c)) then
    (db, .formatError)
  else
    match processRows u username up.rows db 0 with
    | none => (db, .fatalError)
    | some x => (x.1, .processed x.2 (sumByUser x.1 u))

/-! ## Helper lemmas on the store -/

theorem userTxns_insert (db : Ledger) (t : Txn) (u : Int) :
    userTxns (insertTxn db t) u =
      userTxns db u ++ if t.user_id == u then [t] else [] := by
  unfold insertTxn userTxns
  rw [List.filter_append]
  cases h : (t.user_id == u) <;> simp [List.filter_cons, h]

theorem userAmounts_foldl (u : Int) (mk : Rat → Txn)
    (hmk : ∀ a, (mk a).user_id = u ∧ (mk a).amount = a) :
    ∀ (amounts : List Rat) (db : Ledger),
      userAmounts (List.foldl (fun d a => insertTxn d (mk a)) db amounts) u =
        userAmounts db u ++ amounts := by
  intro amounts
  induction amounts with
  | nil => intro db; simp
  | cons a as ih =>
    intro db
    rw [List.foldl_cons, ih]
    unfold userAmounts
    rw [userTxns_insert]
    rw [if_pos (by simp [(hmk a).1])]
    simp [(hmk a).2]

/-- C1: for every user and every sequence of insertions of amounts for that
user starting from a ledger with no transactions of theirs, `sumByUser`
returns the algebraic sum of the inserted amounts, and returns 0 (not
null/absent — the handlers' `or 0` applied to SQL `SUM`) for a user with no
transactions. -/
theorem sumByUser_after_inserts (u : Int) (db : Ledger) (mk : Rat → Txn)
    (hmk : ∀ a, (mk a).user_id = u ∧ (mk a).amount = a)
    (hempty : userTxns db u = []) (amounts : List Rat) :
    sumByUser (List.foldl (fun d a => insertTxn d (mk a)) db amounts) u =
      amounts.sum ∧
    sumByUser db u = 0 := by
  have hA : userAmounts db u = [] := by unfold userAmounts; rw [hempty]; rfl
  constructor
  · rw [sumByUser_eq_sum, userAmounts_foldl u mk hmk amounts db, hA,
      List.nil_append]
  · rw [sumByUser_eq_sum, hA]; rfl

theorem sumByUser_after_inserts_witness :
    sumByUser (List.foldl
      (fun d a => insertTxn d ⟨7, "u", "2025-08-19 10:00:00", a, "other", "d"⟩)
      [] [1000, -250]) 7 = 750 ∧
    sumByUser [] 7 = 0 := by
  have h := sumByUser_after_inserts 7 []
    (fun a => ⟨7, "u", "2025-08-19 10:00:00", a, "other", "d"⟩)
    (fun a => ⟨rfl, rfl⟩) rfl [1000, -250]
  exact ⟨h.1.trans (by norm_num), h.2⟩

/-! ## C2 — balance summary -/

theorem sum_pos_add_neg (l : List Rat) :
    (l.filter (fun a => decide (0 < a))).sum +
      (l.filter (fun a => decide (a < 0))).sum = l.sum := by
  induction l with
  | nil => simp
  | cons a l ih =>
    rw [List.filter_cons, List.filter_cons, List.sum_cons]
    by_cases h1 : 0 < a
    · have h2 : ¬ a < 0 := not_lt.mpr h1.le
      rw [decide_eq_true h1, decide_eq_false h2, if_pos rfl,
        if_neg Bool.false_ne_true, List.sum_cons]
      linarith [ih]
    · by_cases h2 : a < 0
      · rw [decide_eq_false h1, decide_eq_true h2, if_pos rfl,
          if_neg Bool.false_ne_true, List.sum_cons]
        linarith [ih]
      · have h3 : a = 0 := le_antisymm (not_lt.mp h1) (not_lt.mp h2)
        rw [decide_eq_false h1, decide_eq_false h2, if_neg Bool.false_ne_true,
          if_neg Bool.false_ne_true]
        rw [h3]
        linarith [ih]

theorem sum_neg_nonpos (l : List Rat) :
    (l.filter (fun a => decide (a < 0))).sum ≤ 0 := by
  induction l with
  | nil => simp
  | cons a l ih =>
    by_cases h : a < 0
    · rw [List.filter_cons, decide_eq_true h, if_pos rfl, List.sum_cons]
      linarith [ih]
    · rw [List.filter_cons, decide_eq_false h, if_neg Bool.false_ne_true]
      exact ih

/-- C2: on a non-empty ledger, `/balance` reports balance = sum of all
amounts, totalIncome = sum of the strictly positive amounts, totalExpenses =
absolute value of the sum of the strictly negative amounts (zero amounts
count toward neither), and count = number of transactions; consequently
totalIncome − totalExpenses = balance. -/
theorem show_balance_spec (db : Ledger) (u : Int)
    (h : userAmounts db u ≠ []) :
    show_balance db u =
      BalanceView.summary (userAmounts db u).sum
        ((userAmounts db u).filter (fun a => decide (0 < a))).sum
        (abs ((userAmounts db u).filter (fun a => decide (a < 0))).sum)
        (userAmounts db u).length ∧
    ((userAmounts db u).filter (fun a => decide (0 < a))).sum -
        abs ((userAmounts db u).filter (fun a => decide (a < 0))).sum =
      (userAmounts db u).sum := by
  constructor
  · have hcond : (userAmounts db u).isEmpty = false := by
      cases hc : (userAmounts db u).isEmpty
      · rfl
      · exact absurd (List.isEmpty_iff.mp hc) h
    simp only [show_balance, hcond, Bool.false_eq_true, if_false]
  · have habs : abs ((userAmounts db u).filter (fun a => decide (a < 0))).sum =
        -((userAmounts db u).filter (fun a => decide (a < 0))).sum :=
      abs_of_nonpos (sum_neg_nonpos _)
    rw [habs]
    have hsplit := sum_pos_add_neg (userAmounts db u)
    linarith

set_option maxRecDepth 4000 in
theorem show_balance_spec_witness :
    userAmounts ((add_transaction
        (add_transaction [] 1 "u" "2025-08-19 10:00:00" ["1000", "salary"]).1
        1 "u" "2025-08-19 11:00:00" ["-250", "food"]).1) 1 ≠ [] ∧
    show_balance ((add_transaction
        (add_transaction [] 1 "u" "2025-08-19 10:00:00" ["1000", "salary"]).1
        1 "u" "2025-08-19 11:00:00" ["-250", "food"]).1) 1 =
      BalanceView.summary 750 1000 250 2 := by
  refine ⟨by with_unfolding_all decide, ?_⟩
  have h := (show_balance_spec ((add_transaction
      (add_transaction [] 1 "u" "2025-08-19 10:00:00" ["1000", "salary"]).1
      1 "u" "2025-08-19 11:00:00" ["-250", "food"]).1) 1
      (by with_unfolding_all decide)).1
  rw [h]
  with_unfolding_all decide

/-! ## C8 — clear -/

/-- C8: `/clear` removes every transaction belonging to the user and reports
the number removed (0 and a no-op when none exist); immediately afterwards the
user's transaction list is empty and `sumByUser` returns 0. -/
theorem clear_transactions_spec (db : Ledger) (u : Int) :
    (clear_transactions db u).2.1 = (userTxns db u).length ∧
    userTxns (clear_transactions db u).1 u = [] ∧
    sumByUser (clear_transactions db u).1 u = 0 ∧
    (userTxns db u = [] →
      clear_transactions db u = (db, 0, ClearReply.nothingToClear)) ∧
    (userTxns db u ≠ [] →
      (clear_transactions db u).2.2 =
        ClearReply.cleared (userTxns db u).length) := by
  have hfilter : userTxns (db.filter (fun t => !(t.user_id == u))) u = [] := by
    unfold userTxns
    rw [List.filter_filter, List.eq_nil_iff_forall_not_mem]
    intro t ht
    have := List.of_mem_filter ht
    cases hb : (t.user_id == u) <;> simp [hb] at this
  by_cases hempty : userTxns db u = []
  · have hz : (userTxns db u).length = 0 := by rw [hempty]; rfl
    have hcl : clear_transactions db u = (db, 0, ClearReply.nothingToClear) := by
      unfold clear_transactions
      rw [if_pos hz]
    refine ⟨?_, ?_, ?_, fun _ => hcl, fun hne => absurd hempty hne⟩
    · rw [hcl, hz]
    · rw [hcl]; exact hempty
    · rw [hcl]
      show sumByUser db u = 0
      rw [sumByUser_eq_sum]
      unfold userAmounts
      rw [hempty]
      rfl
  · have hz : ¬ (userTxns db u).length = 0 :=
      fun h => hempty (List.length_eq_zero.mp h)
    have hcl : clear_transactions db u =
        (db.filter (fun t => !(t.user_id == u)), (userTxns db u).length,
          ClearReply.cleared (userTxns db u).length) := by
      unfold clear_transactions
      rw [if_neg hz]
    refine ⟨by rw [hcl], ?_, ?_, fun h => absurd h hempty, fun _ => by rw [hcl]⟩
    · rw [hcl]; exact hfilter
    · rw [hcl]
      show sumByUser (db.filter (fun t => !(t.user_id == u))) u = 0
      rw [sumByUser_eq_sum]
      unfold userAmounts
      rw [hfilter]
      rfl

theorem clear_transactions_spec_witness :
    userTxns ([⟨1, "u", "2025-08-19 10:00:00", 5, "other", "d"⟩] : Ledger) 1 ≠ [] ∧
    (clear_transactions [⟨1, "u", "2025-08-19 10:00:00", 5, "other", "d"⟩] 1).2.2 =
      ClearReply.cleared 1 ∧
    sumByUser (clear_transactions
      [⟨1, "u", "2025-08-19 10:00:00", 5, "other", "d"⟩] 1).1 1 = 0 := by
  refine ⟨by decide, ?_, (clear_transactions_spec _ 1).2.2.1⟩
  rw [(clear_transactions_spec
    [⟨1, "u", "2025-08-19 10:00:00", 5, "other", "d"⟩] 1).2.2.2.2 (by decide)]
  decide

/-! ## C9 — export "Type" column -/

/-- C9: in the exported workbook's "Type" column a transaction is labeled
"Income" iff its amount is strictly positive, and "Expense" otherwise — so a
zero amount, which counts toward neither sum, is labeled "Expense". -/
theorem transactionType_spec :
    (∀ a : Rat, (transactionType a = "Income" ↔ 0 < a) ∧
      (transactionType a = "Expense" ↔ ¬ 0 < a)) ∧
    transactionType 0 = "Expense" := by
  have hne : ("Income" : String) ≠ "Expense" := by decide
  have hmain : ∀ a : Rat, (transactionType a = "Income" ↔ 0 < a) ∧
      (transactionType a = "Expense" ↔ ¬ 0 < a) := by
    intro a
    unfold transactionType
    by_cases h : 0 < a
    · rw [if_pos h]
      exact ⟨⟨fun _ => h, fun _ => rfl⟩,
        ⟨fun he => absurd he hne, fun hn => absurd h hn⟩⟩
    · rw [if_neg h]
      exact ⟨⟨fun he => absurd he.symm hne, fun hp => absurd hp h⟩,
        ⟨fun _ => h, fun _ => rfl⟩⟩
  exact ⟨hmain, by unfold transactionType; rw [if_neg (lt_irrefl 0)]⟩

theorem transactionType_spec_witness :
    transactionType 1 = "Income" ∧ transactionType 0 = "Expense" :=
  ⟨(transactionType_spec.1 1).1.mpr (by norm_num), transactionType_spec.2⟩

/-! ## C10 — language codes invariant -/

theorem setlang_invariant :
    ∀ (cmds : List (Int × List String)) (p : Prefs),
      (∀ x ∈ p, x.2 ∈ LANGUAGES_codes) →
      ∀ x ∈ applySetLangCmds p cmds, x.2 ∈ LANGUAGES_codes := by
  intro cmds
  induction cmds with
  | nil => intro p hp; simpa [applySetLangCmds] using hp
  | cons c cs ih =>
    intro p hp
    have hstep : ∀ x ∈ (set_language p c.1 c.2).1, x.2 ∈ LANGUAGES_codes := by
      unfold set_language
      cases harg : c.2 with
      | nil => simpa using hp
      | cons a rest =>
        show ∀ x ∈ (if LANGUAGES_codes.contains a = true
            then (set_user_language p c.1 a, true) else (p, false)).1,
          x.2 ∈ LANGUAGES_codes
        by_cases hc : LANGUAGES_codes.contains a
        · rw [if_pos hc]
          intro x hx
          rcases List.mem_cons.mp hx with hx1 | hx2
          · rw [hx1]
            exact List.elem_iff.mp hc
          · exact hp x (List.mem_of_mem_filter hx2)
        · rw [if_neg hc]
          exact hp
    have hrest := ih (set_language p c.1 c.2).1 hstep
    unfold applySetLangCmds at hrest ⊢
    rw [List.foldl_cons]
    exact hrest

/-- C10: in every reachable preference state (any sequence of `/setlang`
commands applied from the empty table — the only writer of
`user_preferences`), `get_user_language` returns a code in the closed set
{en, ru, kg}: the handler validates membership before storing, and the getter
falls back to "en" when no row exists. -/
theorem get_user_language_reachable (cmds : List (Int × List String)) (u : Int) :
    get_user_language (applySetLangCmds [] cmds) u ∈ LANGUAGES_codes := by
  have hinv := setlang_invariant cmds [] (by intro x hx; cases hx)
  unfold get_user_language
  cases hfind : (applySetLangCmds [] cmds).find? (fun x => x.1 == u) with
  | none => decide
  | some x => exact hinv x (List.mem_of_find?_eq_some hfind)

/-! ## C4 — bulk import: required-columns check -/

/-- C4: an uploaded table lacking a `Date` or `Amount` column by name is
rejected whole with the format-error reply before any row is processed: no
transaction is inserted and the ledger is returned unchanged. -/
theorem handle_file_missing_columns (db : Ledger) (u : Int) (username : String)
    (up : Upload)
    (h : ¬(up.cols.contains "Date" = true ∧ up.cols.contains "Amount" = true)) :
    handle_file db u username up = (db, FileOutcome.formatError) := by
  unfold handle_file
  have hall : (["Date", "Amount"].all (fun c => up.cols.contains c)) = false := by
    cases hD : up.cols.contains "Date" <;>
      cases hA : up.cols.contains "Amount" <;>
      simp_all [List.all_cons]
  rw [hall]
  rfl

theorem handle_file_missing_columns_witness :
    handle_file [] 1 "u"
      ⟨["Amount"], [⟨Cell.txt "2025-01-01", Cell.num 5, Cell.missing,
        Cell.missing⟩]⟩ = ([], FileOutcome.formatError) :=
  handle_file_missing_columns [] 1 "u" _ (by decide)

/-! ## C3 — bulk import: per-row skip policy

A row whose `Amount` cell is missing is NOT skipped: `float(NaN)` is NaN and
raises nothing, the `INSERT` then stores NULL (SQLite converts NaN to NULL)
into the `NOT NULL` amount column, and the resulting `IntegrityError` is not
caught by the loop's `except (ValueError, TypeError)` — the whole batch dies
in the outer handler before `conn.commit()`, discarding even its valid rows,
where the claim promises `inserted = N−K, skipped = K` and no raise. -/

/-- C3 (failing input): a two-row batch — one fully valid row (+100), one row
with a missing amount — produces the generic file-error outcome with nothing
inserted, instead of inserting 1 row and skipping 1. -/
theorem handle_file_nan_amount_aborts :
    handle_file [] 1 "u"
      ⟨["Date", "Amount"],
        [⟨Cell.txt "2025-01-01", Cell.num 100, Cell.missing, Cell.missing⟩,
         ⟨Cell.txt "2025-01-02", Cell.missing, Cell.missing, Cell.missing⟩]⟩ =
      ([], FileOutcome.fatalError) := by
  with_unfolding_all decide

/-! ## C5 — export running balance -/

theorem runningRows_map_fst (acc : Rat) (l : List Txn) :
    (runningRows acc l).map Prod.fst = l := by
  induction l generalizing acc with
  | nil => rfl
  | cons t ts ih => simp [runningRows, ih]

theorem runningRows_length (acc : Rat) (l : List Txn) :
    (runningRows acc l).length = l.length := by
  have h := congrArg List.length (runningRows_map_fst acc l)
  simpa using h

theorem runningRows_get :
    ∀ (l : List Txn) (acc : Rat) (i : Nat)
      (h : i < (runningRows acc l).length),
      ((runningRows acc l).get ⟨i, h⟩).2 =
        acc + ((l.map (fun t => t.amount)).take (i + 1)).sum := by
  intro l
  induction l with
  | nil => intro acc i h; simp [runningRows] at h
  | cons t ts ih =>
    intro acc i h
    cases i with
    | zero => simp [runningRows]
    | succ n =>
      have h2 : n < (runningRows (acc + t.amount) ts).length := by
        simpa [runningRows] using h
      show ((runningRows (acc + t.amount) ts).get ⟨n, h2⟩).2 = _
      rw [ih (acc + t.amount) n h2, List.map_cons, List.take_succ_cons,
        List.sum_cons]
      ring

theorem runningRows_getLast (l : List Txn) (acc : Rat) (hne : l ≠ []) :
    ∃ p, (runningRows acc l).getLast? = some p ∧
      p.2 = acc + (l.map (fun t => t.amount)).sum := by
  have hl : 0 < l.length := List.length_pos.mpr hne
  have hlen : (runningRows acc l).length = l.length := runningRows_length acc l
  have hi : (runningRows acc l).length - 1 < (runningRows acc l).length := by
    omega
  refine ⟨(runningRows acc l).get ⟨(runningRows acc l).length - 1, hi⟩, ?_, ?_⟩
  · rw [List.getLast?_eq_getElem?, List.getElem?_eq_getElem hi,
      List.get_eq_getElem]
  · rw [runningRows_get l acc _ hi]
    have h1 : (runningRows acc l).length - 1 + 1 =
        (l.map (fun t => t.amount)).length := by
      rw [List.length_map]; omega
    rw [h1, List.take_length]

/-- C5: the export series is ordered by timestamp ascending, each entry's
running balance is the cumulative sum of the amounts up to and including that
entry (in that chronological order), and the last entry's running balance
equals `sumByUser`. -/
theorem export_transactions_spec (db : Ledger) (u : Int) :
    List.Pairwise (fun p q : Txn × Rat => dateLe p.1 q.1)
      (export_transactions db u) ∧
    (∀ (i : Nat) (h : i < (export_transactions db u).length),
      ((export_transactions db u).get ⟨i, h⟩).2 =
        (((userTxnsAsc db u).map (fun t => t.amount)).take (i + 1)).sum) ∧
    (userTxns db u ≠ [] →
      ∃ p, (export_transactions db u).getLast? = some p ∧
        p.2 = sumByUser db u) := by
  refine ⟨?_, ?_, ?_⟩
  · have hs : List.Sorted dateLe (userTxnsAsc db u) :=
      List.sorted_insertionSort dateLe (userTxns db u)
    have hpair : List.Pairwise dateLe
        ((runningRows 0 (userTxnsAsc db u)).map Prod.fst) := by
      rw [runningRows_map_fst]; exact hs
    exact (List.pairwise_map).mp hpair
  · intro i h
    unfold export_transactions at h ⊢
    rw [runningRows_get _ 0 i h, zero_add]
  · intro hne
    have hne2 : userTxnsAsc db u ≠ [] := by
      unfold userTxnsAsc
      intro hnil
      have hperm := List.perm_insertionSort dateLe (userTxns db u)
      rw [hnil] at hperm
      exact hne (List.Perm.eq_nil hperm.symm)
    obtain ⟨p, hp, hv⟩ := runningRows_getLast (userTxnsAsc db u) 0 hne2
    refine ⟨p, hp, ?_⟩
    rw [hv, zero_add, sumByUser_eq_sum]
    have hperm := List.perm_insertionSort dateLe (userTxns db u)
    unfold userTxnsAsc userAmounts
    exact (hperm.map (fun t => t.amount)).sum_eq

theorem export_transactions_spec_witness :
    ((export_transactions
        [⟨1, "u", "2025-08-19 11:00:00", -250, "food", "food"⟩,
         ⟨1, "u", "2025-08-19 10:00:00", 1000, "salary", "salary"⟩] 1).get
      ⟨1, by with_unfolding_all decide⟩).2 =
      (((userTxnsAsc
        [⟨1, "u", "2025-08-19 11:00:00", -250, "food", "food"⟩,
         ⟨1, "u", "2025-08-19 10:00:00", 1000, "salary", "salary"⟩] 1).map
          (fun t => t.amount)).take 2).sum ∧
    (∃ p, (export_transactions
        [⟨1, "u", "2025-08-19 11:00:00", -250, "food", "food"⟩,
         ⟨1, "u", "2025-08-19 10:00:00", 1000, "salary", "salary"⟩] 1).getLast? =
        some p ∧
      p.2 = sumByUser
        [⟨1, "u", "2025-08-19 11:00:00", -250, "food", "food"⟩,
         ⟨1, "u", "2025-08-19 10:00:00", 1000, "salary", "salary"⟩] 1) :=
  ⟨(export_transactions_spec _ 1).2.1 1 (by with_unfolding_all decide),
   (export_transactions_spec _ 1).2.2 (by decide)⟩

/-! ## C7 — history -/

/-- C7: `/history` returns the user's transactions ordered by timestamp
descending, truncated to the limit 10; when more exist, the total count is
reported (as `total − 10`, i.e. exactly the number of omitted records beyond
what is shown). -/
theorem show_history_spec (db : Ledger) (u : Int) (h : userTxns db u ≠ []) :
    ∃ rows om, show_history db u = HistoryView.entries rows om ∧
      rows = (List.insertionSort dateGe (userTxns db u)).take 10 ∧
      List.Pairwise dateGe rows ∧
      rows.length = min 10 (userTxns db u).length ∧
      (om = none ↔ (userTxns db u).length ≤ 10) ∧
      (∀ k, om = some k → k = (userTxns db u).length - rows.length) := by
  have hlen : (List.insertionSort dateGe (userTxns db u)).length =
      (userTxns db u).length := List.length_insertionSort _ _
  have hpos : 0 < (userTxns db u).length := List.length_pos.mpr h
  have hne : ((List.insertionSort dateGe (userTxns db u)).take 10).isEmpty =
      false := by
    cases hc : ((List.insertionSort dateGe (userTxns db u)).take 10).isEmpty
    · rfl
    · exfalso
      have h0 := congrArg List.length (List.isEmpty_iff.mp hc)
      rw [List.length_take, hlen] at h0
      simp only [List.length_nil] at h0
      omega
  have hpair : List.Pairwise dateGe
      ((List.insertionSort dateGe (userTxns db u)).take 10) :=
    (List.sorted_insertionSort dateGe (userTxns db u)).sublist
      (List.take_sublist _ _)
  have hlentake : ((List.insertionSort dateGe (userTxns db u)).take 10).length =
      min 10 (userTxns db u).length := by
    rw [List.length_take, hlen]
  unfold show_history
  rw [hne]
  rw [if_neg Bool.false_ne_true]
  by_cases h10 : 10 < (userTxns db u).length
  · rw [if_pos h10]
    refine ⟨_, _, rfl, rfl, hpair, hlentake, ?_, ?_⟩
    · constructor
      · intro hx; exact absurd hx (by simp)
      · intro hle; omega
    · intro k hk
      have hk2 : k = (userTxns db u).length - 10 := by
        exact (Option.some.injEq _ _).mp hk.symm
      rw [hk2, hlentake]
      omega
  · rw [if_neg h10]
    refine ⟨_, _, rfl, rfl, hpair, hlentake, ?_, ?_⟩
    · exact ⟨fun _ => by omega, fun _ => rfl⟩
    · intro k hk; exact absurd hk (by simp)

theorem show_history_spec_witness :
    show_history [⟨1, "u", "2025-08-19 10:00:00", 5, "other", "d"⟩] 1 =
      HistoryView.entries [⟨1, "u", "2025-08-19 10:00:00", 5, "other", "d"⟩]
        none := by
  obtain ⟨rows, om, heq, hrows, -, -, homn, -⟩ :=
    show_history_spec [⟨1, "u", "2025-08-19 10:00:00", 5, "other", "d"⟩] 1
      (by decide)
  rw [heq, hrows, homn.mpr (by decide)]
  with_unfolding_all decide

/-! ## C6 — date-range query -/

/-- C6: date-only bounds are widened to full days (the query compares against
`start || " 00:00:00"` and `end || " 23:59:59"`), so with `start = end = d`
the query returns exactly the user's transactions recorded on day `d` (their
timestamp's day component equals `d`), intersected with the category filter;
and the category argument is matched case-insensitively (the handler
lowercases it, and arguments equal up to case produce identical reports). -/
theorem queryRange_day_spec (db : Ledger) (u : Int) (d : String)
    (cat : Option String) (hd : ValidDate d.data)
    (hts : ∀ t ∈ db, t.user_id = u → ValidTs t.date) :
    queryRange db u d d cat =
      db.filter (fun t =>
        t.user_id == u && decide (t.date.data.take 10 = d.data) &&
          (match cat with
           | none => true
           | some c => t.category == c)) ∧
    (∀ (s e c c' : String), c.toLower = c'.toLower →
      generate_report db u [s, e, c] = generate_report db u [s, e, c']) := by
  constructor
  · unfold queryRange
    apply List.filter_congr
    intro t ht
    cases hu : (t.user_id == u)
    · simp
    · have huid : t.user_id = u := by simpa using hu
      have hv : ValidTs t.date := hts t ht huid
      simp only [Bool.true_and]
      rw [between_day_iff hd hv]
  · intro s e c c' hlow
    unfold generate_report
    simp only [List.getD, List.get?, Option.getD_some, List.length_cons,
      List.length_nil]
    rw [hlow]

theorem queryRange_day_spec_witness :
    queryRange
      [⟨1, "u", "2025-08-19 10:00:00", 1000, "salary", "salary"⟩,
       ⟨1, "u", "2025-08-20 09:00:00", -5, "food", "food"⟩,
       ⟨2, "u2", "2025-08-19 12:00:00", 7, "other", "other"⟩] 1
      "2025-08-19" "2025-08-19" none =
      [⟨1, "u", "2025-08-19 10:00:00", 1000, "salary", "salary"⟩] ∧
    generate_report
      [⟨1, "u", "2025-08-19 10:00:00", 1000, "salary", "salary"⟩,
       ⟨1, "u", "2025-08-20 09:00:00", -5, "food", "food"⟩,
       ⟨2, "u2", "2025-08-19 12:00:00", 7, "other", "other"⟩] 1
      ["2025-08-19", "2025-08-19", "SaLaRy"] =
      generate_report
      [⟨1, "u", "2025-08-19 10:00:00", 1000, "salary", "salary"⟩,
       ⟨1, "u", "2025-08-20 09:00:00", -5, "food", "food"⟩,
       ⟨2, "u2", "2025-08-19 12:00:00", 7, "other", "other"⟩] 1
      ["2025-08-19", "2025-08-19", "salary"] := by
  have h := queryRange_day_spec
    [⟨1, "u", "2025-08-19 10:00:00", 1000, "salary", "salary"⟩,
     ⟨1, "u", "2025-08-20 09:00:00", -5, "food", "food"⟩,
     ⟨2, "u2", "2025-08-19 12:00:00", 7, "other", "other"⟩] 1
    "2025-08-19" none (by decide) (by decide)
  exact ⟨h.1.trans (by decide),
    h.2 "2025-08-19" "2025-08-19" "SaLaRy" "salary"
      (by with_unfolding_all decide)⟩
